import Mathlib

/-!
# Verification of the pdf-search multi-stage similarity pipeline

Shallow embedding of the similarity-search core of the `pdf-search`
repository.  The repository ships the pipeline's caller
(`scripts/verify-threshold-changes.ts`, calling
`executeSimilaritySearch` from `@/lib/similarity/orchestrator`), the
database schema (`MASTER-DATABASE-SETUP.sql`: `documents` with
`centroid_embedding`, `effective_chunk_count`, `total_characters`,
`embedding_model`; `document_embeddings` with the unique index
`idx_document_embeddings_unique` on `(document_id, chunk_index)`), and a
specification of the pipeline itself; the orchestrator/stage sources are
not part of the repository snapshot, so the pipeline definitions below
are modelled from the specification and are marked as such.
-/

namespace PdfSearch

/-- A half-open span `[lo, hi)` of character positions on a document's
page-anchored character timeline.  Modelled from the spec: chunks are
"page-anchored character spans" and de-overlap is "an interval-merge
over page-anchored character spans". -/
structure Span where
  lo : Nat
  hi : Nat
deriving DecidableEq, Repr

/-- Number of characters in a span. -/
def Span.len (s : Span) : Nat := s.hi - s.lo

/-- Generic insertion into a list sorted by the boolean order `le`. -/
def insertOrd (le : α → α → Bool) (x : α) : List α → List α
  | [] => [x]
  | y :: ys => if le x y then x :: y :: ys else y :: insertOrd le x ys

/-- Generic insertion sort by the boolean order `le`. -/
def sortOrd (le : α → α → Bool) : List α → List α
  | [] => []
  | x :: xs => insertOrd le x (sortOrd le xs)

/-- Sortedness with respect to a boolean order, as a chain of
consecutive comparisons. -/
def SortedB (le : α → α → Bool) (l : List α) : Prop :=
  List.Chain' (fun a b => le a b = true) l

/-- Order on spans: by lower endpoint. -/
def spanLE (a b : Span) : Bool := decide (a.lo ≤ b.lo)

/-- Sort spans by lower endpoint. -/
def sortSpans : List Span → List Span := sortOrd spanLE

/-- Merge a sorted run of spans into non-overlapping spans, carrying the
current merged span `cur`.  Modelled from the spec: "resolve overlapping
chunk windows into a non-overlapping character timeline", implemented
"as an interval-merge over page-anchored character spans". -/
def mergeInto (cur : Span) : List Span → List Span
  | [] => [cur]
  | t :: rest =>
    if t.lo ≤ cur.hi then mergeInto ⟨cur.lo, max cur.hi t.hi⟩ rest
    else cur :: mergeInto t rest

/-- The de-overlap step: sort the chunk spans by start position and
merge overlapping spans into a non-overlapping character timeline.
Modelled from the spec ("De-overlap", §4.3 step 1 and §9). -/
def deoverlap (l : List Span) : List Span :=
  match sortSpans l with
  | [] => []
  | s :: rest => mergeInto s rest

/-- `totalCharacters` of a chunk-span set: the character count across
the de-overlapped spans, "so that a character is counted at most once".
Modelled from the spec (§3 Document.totalCharacters). -/
def totalCharactersOf (l : List Span) : Nat :=
  ((deoverlap l).map Span.len).sum

/-- `effectiveChunkCount` of a chunk-span set: the chunk count after
de-overlapping.  Modelled from the spec (§3 Document.effectiveChunkCount). -/
def effectiveChunkCountOf (l : List Span) : Nat :=
  (deoverlap l).length

/-- The set of character positions covered by a list of spans. -/
def covered (l : List Span) : Finset Nat :=
  l.foldr (fun s acc => Finset.Ico s.lo s.hi ∪ acc) ∅

/-- Spans sorted by lower endpoint, as a proposition on consecutive
elements. -/
def SortedByLo (l : List Span) : Prop :=
  List.Chain' (fun a b => a.lo ≤ b.lo) l

/-- Separation of consecutive merged spans: the previous span ends
strictly before the next begins, and lower endpoints stay sorted. -/
def SepR (a b : Span) : Prop := a.hi < b.lo ∧ a.lo ≤ b.lo

/-- The merged list is separated: consecutive spans do not touch. -/
def Separated (l : List Span) : Prop := List.Chain' SepR l

/-- A text chunk of a document.  Modelled from the spec (§3 Chunk) and
the `document_embeddings` schema (`chunk_index`, `start_page_number`,
`end_page_number`, `character_count`, `embedding`).  The chunk's
position on the document's character timeline is carried as a `Span`,
the page-anchored character span that the de-overlap step merges; its
`characterCount` is the span's length. -/
structure Chunk where
  chunkIndex : Nat
  startPage : Nat
  endPage : Nat
  span : Span
  embedding : List ℚ
deriving DecidableEq

/-- A chunk's character count (spec §3). -/
def Chunk.characterCount (c : Chunk) : Nat := c.span.len

/-- A document.  Modelled from the spec (§3 Document) and the
`documents` schema (`centroid_embedding`, `effective_chunk_count`,
`total_characters`, `embedding_model`); the similarity columns are
nullable, set once text extraction completes. -/
structure Document where
  id : Nat
  centroidEmbedding : Option (List ℚ)
  effectiveChunkCount : Option Nat
  totalCharacters : Option Nat
  embeddingModel : String
  chunks : List Chunk
deriving DecidableEq

/-- Data-model invariant (spec §3): the stored `totalCharacters` is the
character count across the document's de-overlapped chunk spans. -/
def docTotalsConsistent (d : Document) : Prop :=
  d.totalCharacters = some (totalCharactersOf (d.chunks.map Chunk.span))

instance : DecidablePred docTotalsConsistent := fun d => by
  unfold docTotalsConsistent
  infer_instance

/-- Typed failures surfaced by `search`.  Modelled from the spec (§6/§7
error taxonomy). -/
inductive SearchError where
  | incompleteDocument
  | modelMismatch
  | cancelled
  | internalScoringError
  | documentNotFound
deriving DecidableEq

/-- A per-candidate Stage 2 failure, e.g. a chunk fetch error, carrying
document id and cause.  Modelled from the spec (§7
PerCandidateScoringError). -/
structure ScoringError where
  docId : Nat
  cause : String
deriving DecidableEq

/-- A transient Stage 0/1 candidate: document plus approximate score.
Modelled from the spec (§3 SimilarityCandidate). -/
structure ScoredDoc where
  doc : Document
  score : ℚ
deriving DecidableEq

/-- Bidirectional character-weighted scores.  Modelled from the spec
(§3 SearchResult, §4.3 step 4) and the fields read by
`scripts/verify-threshold-changes.ts`. -/
structure Scores where
  sourceScore : ℚ
  targetScore : ℚ
  matchedSourceCharacters : Nat
  matchedTargetCharacters : Nat
deriving DecidableEq

/-- One pipeline output row.  Modelled from the spec (§3 SearchResult)
and the result shape read by `scripts/verify-threshold-changes.ts`
(`r.document.id`, `r.scores.sourceScore`, `r.scores.targetScore`,
`r.matchedChunks`). -/
structure SearchResult where
  docId : Nat
  scores : Scores
  matchedChunks : Nat
deriving DecidableEq

/-- Candidate order: descending score, ties broken by ascending
document identifier for determinism (spec §4.2 tie-break). -/
def candLE (a b : ScoredDoc) : Bool :=
  decide (b.score < a.score ∨ (a.score = b.score ∧ a.doc.id ≤ b.doc.id))

/-- Which score the inclusion threshold and final ordering use.  The
spec (§4.4) makes this a tunable policy knob over `sourceScore`,
`targetScore` or a combination; the two single-score policies are
modelled. -/
inductive ThresholdKey where
  | bySource
  | byTarget
deriving DecidableEq

/-- Options accepted by `search` (spec §4.4; the first three field
names are exactly those passed by `scripts/verify-threshold-changes.ts`). -/
structure SearchOptions where
  stage0_topK : Nat
  stage1_topK : Nat
  stage2_parallelWorkers : Nat
  threshold : ℚ
  thresholdKey : ThresholdKey

/-- The primary score the orchestrator filters and sorts on. -/
def primaryScore (key : ThresholdKey) (r : SearchResult) : ℚ :=
  match key with
  | .bySource => r.scores.sourceScore
  | .byTarget => r.scores.targetScore

/-- Result order: descending primary score, ties broken by document
identifier (spec §4.4). -/
def resultLE (key : ThresholdKey) (a b : SearchResult) : Bool :=
  decide (primaryScore key b < primaryScore key a ∨
    (primaryScore key a = primaryScore key b ∧ a.docId ≤ b.docId))

/-- Stage 0 eligibility: exclude the source document itself, any
document whose `embeddingModel` differs from the source's (silently —
this is not an error), and documents that have not completed processing
(spec §3 invariant: a document participates in similarity search only
if `centroidEmbedding` and `totalCharacters` are both set).  Modelled
from the spec (§4.1). -/
def eligible (src d : Document) : Bool :=
  decide (d.id ≠ src.id) && d.centroidEmbedding.isSome &&
    d.totalCharacters.isSome && decide (d.embeddingModel = src.embeddingModel)

/-- Stage 0 — candidate prefilter: order the eligible corpus by
descending centroid similarity and keep the top `k0`.  The approximate
index's centroid scoring (`approximateNearestCentroids`) is an external
collaborator, taken here as the function `sim`.  Modelled from the spec
(§4.1). -/
def stage0 (sim : Document → ℚ) (src : Document) (corpus : List Document)
    (k0 : Nat) : List Document :=
  ((sortOrd candLE ((corpus.filter (eligible src)).map
    (fun d => ⟨d, sim d⟩))).map ScoredDoc.doc).take k0

/-- Stage 1 refined per-candidate estimate: the best chunk-pair
similarity between source and candidate.  Modelled from the spec (§4.2;
§9 leaves the exact statistic open and suggests the maximum chunk-pair
similarity). -/
def refinedScore (simChunk : List ℚ → List ℚ → ℚ) (src cand : Document) : ℚ :=
  src.chunks.foldr
    (fun s acc => cand.chunks.foldr
      (fun c acc2 => max (simChunk s.embedding c.embedding) acc2) acc) 0

/-- Stage 1 — refined ranking: re-score the Stage 0 candidates with the
refined estimate and keep the top `k1`, ties broken by document
identifier.  Modelled from the spec (§4.2). -/
def stage1 (simChunk : List ℚ → List ℚ → ℚ) (src : Document)
    (cands : List Document) (k1 : Nat) : List Document :=
  ((sortOrd candLE (cands.map
    (fun d => ⟨d, refinedScore simChunk src d⟩))).map ScoredDoc.doc).take k1

/-- Source chunks aligned with at least one candidate chunk: members of
chunk pairs whose embedding similarity clears the internal chunk-match
threshold (spec §4.3 step 2). -/
def matchedSourceChunks (simChunk : List ℚ → List ℚ → ℚ)
    (chunkThreshold : ℚ) (srcChunks candChunks : List Chunk) : List Chunk :=
  srcChunks.filter (fun s => candChunks.any
    (fun c => decide (chunkThreshold ≤ simChunk s.embedding c.embedding)))

/-- Candidate chunks aligned with at least one source chunk
(spec §4.3 step 2). -/
def matchedTargetChunks (simChunk : List ℚ → List ℚ → ℚ)
    (chunkThreshold : ℚ) (srcChunks candChunks : List Chunk) : List Chunk :=
  candChunks.filter (fun c => srcChunks.any
    (fun s => decide (chunkThreshold ≤ simChunk s.embedding c.embedding)))

/-- Stage 2 exact scoring of one candidate: de-overlap the matched
chunks on both sides and compute the character-weighted bidirectional
scores, with the de-overlapped totals as denominators — never the raw,
overlap-inflated counts (spec §4.3 steps 1–4:
`sourceScore = matchedSourceCharacters / sourceDocument.totalCharacters`,
`targetScore = matchedTargetCharacters / candidate.totalCharacters`). -/
def scoreCandidate (simChunk : List ℚ → List ℚ → ℚ) (chunkThreshold : ℚ)
    (src : Document) (candChunks : List Chunk) (cand : Document) :
    SearchResult :=
  let ms := matchedSourceChunks simChunk chunkThreshold src.chunks candChunks
  let mt := matchedTargetChunks simChunk chunkThreshold src.chunks candChunks
  let msc := totalCharactersOf (ms.map Chunk.span)
  let mtc := totalCharactersOf (mt.map Chunk.span)
  { docId := cand.id
    scores :=
      { sourceScore := (msc : ℚ) / ((src.totalCharacters.getD 0 : Nat) : ℚ)
        targetScore := (mtc : ℚ) / ((cand.totalCharacters.getD 0 : Nat) : ℚ)
        matchedSourceCharacters := msc
        matchedTargetCharacters := mtc }
    matchedChunks := ms.length }

/-- Stage 2 batch: score candidates one by one; a per-candidate failure
is caught and drops only that candidate, never aborting the batch
(spec §4.3 failure handling).  Candidates are independent, so the
bounded-parallel execution of the real pipeline computes the same
multiset; the orchestrator re-sorts afterwards. -/
def stage2Batch (score : Document → Except ScoringError SearchResult) :
    List Document → List SearchResult
  | [] => []
  | c :: rest =>
    match score c with
    | .ok r => r :: stage2Batch score rest
    | .error _ => stage2Batch score rest

/-- Look up a document by identifier, as the Embedding Store's
`getDocumentCentroid`/`getDocumentTotals` collaborators would. -/
def findDocument (corpus : List Document) (id : Nat) : Option Document :=
  corpus.find? (fun d => d.id == id)

/-- Stages 0→1→2 chained: Stage 0 output is Stage 1 input, Stage 1
output is Stage 2 input (spec §2 data flow).  `fetch` is the Embedding
Store's `getChunks` collaborator, which may fail for a candidate. -/
def pipeline (sim : Document → ℚ) (simChunk : List ℚ → List ℚ → ℚ)
    (chunkThreshold : ℚ)
    (fetch : Document → Except ScoringError (List Chunk))
    (corpus : List Document) (src : Document) (k0 k1 : Nat) :
    List SearchResult :=
  stage2Batch
    (fun c => (fetch c).map (fun chunks =>
      scoreCandidate simChunk chunkThreshold src chunks c))
    (stage1 simChunk src (stage0 sim src corpus k0) k1)

/-- The orchestrator's `search(sourceDocumentId, options)`: fail fast
with `IncompleteDocument` when the source document is not fully
processed, otherwise run stages 0→1→2, apply the inclusion threshold to
Stage 2 output and return the results sorted by descending primary
score, ties broken by document identifier.  Modelled from the spec
(§4.4). -/
def search (sim : Document → ℚ) (simChunk : List ℚ → List ℚ → ℚ)
    (chunkThreshold : ℚ)
    (fetch : Document → Except ScoringError (List Chunk))
    (corpus : List Document) (srcId : Nat) (opts : SearchOptions) :
    Except SearchError (List SearchResult) :=
  match findDocument corpus srcId with
  | none => .error .documentNotFound
  | some src =>
    match src.centroidEmbedding, src.totalCharacters with
    | none, _ => .error .incompleteDocument
    | some _, none => .error .incompleteDocument
    | some _, some _ =>
      .ok (sortOrd (resultLE opts.thresholdKey)
        ((pipeline sim simChunk chunkThreshold fetch corpus src
            opts.stage0_topK opts.stage1_topK).filter
          (fun r =>
            decide (opts.threshold ≤ primaryScore opts.thresholdKey r))))

/-- A row of the `document_embeddings` table
(`MASTER-DATABASE-SETUP.sql`, lines 109–120). -/
structure EmbeddingRow where
  id : Nat
  document_id : Nat
  chunk_text : String
  embedding : List ℚ
  chunk_index : Nat
  page_number : Option Nat
  start_page_number : Option Nat
  end_page_number : Option Nat
  character_count : Option Nat
deriving DecidableEq

/-- The uniqueness guarded by `idx_document_embeddings_unique`
(`MASTER-DATABASE-SETUP.sql`, lines 122–124): no two rows share the
same `(document_id, chunk_index)` pair. -/
def uniqueIndexOk (rows : List EmbeddingRow) : Prop :=
  List.Pairwise (fun r₁ r₂ =>
    ¬(r₁.document_id = r₂.document_id ∧ r₁.chunk_index = r₂.chunk_index))
    rows

instance : DecidablePred uniqueIndexOk := fun rows => by
  unfold uniqueIndexOk
  infer_instance

/-- INSERT of a chunk-embedding row under the unique index: a row whose
`(document_id, chunk_index)` already exists is rejected (the statement
fails and the table is unchanged), otherwise the row is appended. -/
def insertEmbedding (rows : List EmbeddingRow) (r : EmbeddingRow) :
    Option (List EmbeddingRow) :=
  if rows.any (fun q => q.document_id == r.document_id &&
      q.chunk_index == r.chunk_index)
  then none
  else some (rows ++ [r])

/-- The number of results of a completed search (zero for a failed
one), the `result.results.length` read by
`scripts/verify-threshold-changes.ts`. -/
def resultCount : Except SearchError (List SearchResult) → Nat
  | .ok rs => rs.length
  | .error _ => 0

/-- A constant centroid-similarity function, used to instantiate the
external approximate index on concrete corpora. -/
def simConst : Document → ℚ := fun _ => 1

/-- A concrete chunk-similarity function: identical embeddings score 1,
all other pairs score 0. -/
def simChunkEq : List ℚ → List ℚ → ℚ := fun x y => if x = y then 1 else 0

/-- A chunk fetch that always succeeds with the document's own chunks
(the Embedding Store's `getChunks` without failures). -/
def fetchOk : Document → Except ScoringError (List Chunk) :=
  fun d => .ok d.chunks

/-- A source document whose centroid embedding is not set (text
extraction has not completed). -/
def incompleteDoc : Document :=
  { id := 0
    centroidEmbedding := none
    effectiveChunkCount := none
    totalCharacters := none
    embeddingModel := "text-embedding-005"
    chunks := [] }

/-- Scenario source document: 10000 characters over two chunks, the
first 4500 characters embedded as `[1]`, the rest as `[2]`. -/
def scenarioSource : Document :=
  { id := 1
    centroidEmbedding := some [1]
    effectiveChunkCount := some 1
    totalCharacters := some 10000
    embeddingModel := "text-embedding-005"
    chunks :=
      [ { chunkIndex := 0, startPage := 1, endPage := 1,
          span := ⟨0, 4500⟩, embedding := [1] },
        { chunkIndex := 1, startPage := 2, endPage := 3,
          span := ⟨4500, 10000⟩, embedding := [2] } ] }

/-- Scenario candidate document: 5000 characters in one chunk embedded
as `[1]`, so exactly one aligned section covers 4500 of the source's
characters and all 5000 of the candidate's. -/
def scenarioCandidate : Document :=
  { id := 2
    centroidEmbedding := some [1]
    effectiveChunkCount := some 1
    totalCharacters := some 5000
    embeddingModel := "text-embedding-005"
    chunks :=
      [ { chunkIndex := 0, startPage := 1, endPage := 1,
          span := ⟨0, 5000⟩, embedding := [1] } ] }

/-- Scenario corpus holding the source and the candidate. -/
def scenarioCorpus : List Document := [scenarioSource, scenarioCandidate]

/-- Scenario options with threshold 0.90 taken on the given score. -/
def scenarioOptions (key : ThresholdKey) : SearchOptions :=
  { stage0_topK := 600
    stage1_topK := 250
    stage2_parallelWorkers := 1
    threshold := 9/10
    thresholdKey := key }

/-- The scenario's expected single result: `sourceScore = 0.45`,
`targetScore = 1.0`. -/
def scenarioResult : SearchResult :=
  { docId := 2
    scores :=
      { sourceScore := 9/20
        targetScore := 1
        matchedSourceCharacters := 4500
        matchedTargetCharacters := 5000 }
    matchedChunks := 1 }

/-- A processed document with no chunks, for small concrete corpora. -/
def plainDoc (i : Nat) : Document :=
  { id := i
    centroidEmbedding := some [1]
    effectiveChunkCount := some 0
    totalCharacters := some 0
    embeddingModel := "text-embedding-005"
    chunks := [] }

/-- A Stage 2 scorer that fails with a chunk fetch error on document 1
and scores every other document with empty scores. -/
def failingScorer : Document → Except ScoringError SearchResult :=
  fun d =>
    if d.id = 1 then .error ⟨1, "chunk fetch error"⟩
    else .ok
      { docId := d.id
        scores :=
          { sourceScore := 0, targetScore := 0
            matchedSourceCharacters := 0, matchedTargetCharacters := 0 }
        matchedChunks := 0 }

/-- A sample `document_embeddings` row of document 7 at the given chunk
index. -/
def sampleRow (i : Nat) : EmbeddingRow :=
  { id := i
    document_id := 7
    chunk_text := "text"
    embedding := [1]
    chunk_index := i
    page_number := some 1
    start_page_number := some 1
    end_page_number := some 1
    character_count := some 4 }

/-- A processed document embedded under a different model than the
scenario documents. -/
def mismatchDoc : Document :=
  { id := 3
    centroidEmbedding := some [1]
    effectiveChunkCount := some 0
    totalCharacters := some 0
    embeddingModel := "gemini-embedding-001"
    chunks := [] }

/-- The scenario corpus extended with a document from a different
embedding space. -/
def corpusWithMismatch : List Document := scenarioCorpus ++ [mismatchDoc]

theorem mem_covered {x : Nat} {l : List Span} :
    x ∈ covered l ↔ ∃ s ∈ l, s.lo ≤ x ∧ x < s.hi := by
  induction l with
  | nil => simp [covered]
  | cons s rest ih =>
    simp only [covered, List.foldr_cons, Finset.mem_union, Finset.mem_Ico,
      List.mem_cons] at *
    constructor
    · rintro (h | h)
      · exact ⟨s, Or.inl rfl, h⟩
      · obtain ⟨t, ht, hx⟩ := ih.mp h
        exact ⟨t, Or.inr ht, hx⟩
    · rintro ⟨t, (rfl | ht), hx⟩
      · exact Or.inl hx
      · exact Or.inr (ih.mpr ⟨t, ht, hx⟩)

theorem covered_eq_of_mem_iff {l₁ l₂ : List Span}
    (h : ∀ s, s ∈ l₁ ↔ s ∈ l₂) : covered l₁ = covered l₂ := by
  ext x
  simp only [mem_covered]
  constructor
  · rintro ⟨s, hs, hx⟩; exact ⟨s, (h s).mp hs, hx⟩
  · rintro ⟨s, hs, hx⟩; exact ⟨s, (h s).mpr hs, hx⟩

theorem mem_insertOrd (le : α → α → Bool) (x a : α) (l : List α) :
    a ∈ insertOrd le x l ↔ a = x ∨ a ∈ l := by
  induction l with
  | nil => simp [insertOrd]
  | cons y ys ih =>
    simp only [insertOrd]
    split
    · simp [List.mem_cons]
    · simp only [List.mem_cons, ih]
      tauto

theorem mem_sortOrd (le : α → α → Bool) (a : α) (l : List α) :
    a ∈ sortOrd le l ↔ a ∈ l := by
  induction l with
  | nil => simp [sortOrd]
  | cons x xs ih =>
    simp only [sortOrd, mem_insertOrd, List.mem_cons, ih]

theorem length_insertOrd (le : α → α → Bool) (x : α) (l : List α) :
    (insertOrd le x l).length = l.length + 1 := by
  induction l with
  | nil => rfl
  | cons y ys ih =>
    simp only [insertOrd]
    split
    · rfl
    · simp [List.length_cons, ih]

theorem length_sortOrd (le : α → α → Bool) (l : List α) :
    (sortOrd le l).length = l.length := by
  induction l with
  | nil => rfl
  | cons x xs ih =>
    simp [sortOrd, length_insertOrd, ih]

theorem head_insertOrd (le : α → α → Bool) (x : α) (l : List α) :
    (insertOrd le x l).head? = some x ∨ (insertOrd le x l).head? = l.head? := by
  cases l with
  | nil => left; rfl
  | cons y ys =>
    simp only [insertOrd]
    split
    · left; rfl
    · right; rfl

theorem sortedB_insertOrd {le : α → α → Bool}
    (htot : ∀ a b, le a b = false → le b a = true) (x : α) {l : List α}
    (h : SortedB le l) : SortedB le (insertOrd le x l) := by
  induction l with
  | nil => simp [insertOrd, SortedB]
  | cons y ys ih =>
    simp only [insertOrd]
    split
    · exact List.Chain'.cons (by assumption) h
    · rename_i hxy
      rw [SortedB, List.chain'_cons']
      refine ⟨?_, ih (List.Chain'.tail h)⟩
      intro z hz
      rcases head_insertOrd le x ys with hh | hh
      · rw [hh] at hz
        cases hz
        exact htot x y (by simpa using hxy)
      · rw [hh] at hz
        have := List.chain'_cons'.mp h
        exact this.1 z hz

theorem sortedB_sortOrd {le : α → α → Bool}
    (htot : ∀ a b, le a b = false → le b a = true) (l : List α) :
    SortedB le (sortOrd le l) := by
  induction l with
  | nil => simp [sortOrd, SortedB]
  | cons x xs ih => exact sortedB_insertOrd htot x ih

theorem sortOrd_of_sortedB {le : α → α → Bool} {l : List α}
    (h : SortedB le l) : sortOrd le l = l := by
  induction l with
  | nil => rfl
  | cons x xs ih =>
    have hx := List.chain'_cons'.mp h
    rw [sortOrd, ih hx.2]
    cases xs with
    | nil => rfl
    | cons y ys =>
      have : le x y = true := hx.1 y rfl
      simp [insertOrd, this]

theorem sortedB_spanLE_iff {l : List Span} :
    SortedB spanLE l ↔ SortedByLo l := by
  unfold SortedB SortedByLo spanLE
  constructor
  · exact fun h => h.imp (fun a b hab => by simpa using hab)
  · exact fun h => h.imp (fun a b hab => by simpa using hab)

theorem sortedByLo_sortSpans (l : List Span) : SortedByLo (sortSpans l) := by
  rw [← sortedB_spanLE_iff]
  refine sortedB_sortOrd ?_ l
  intro a b h
  simp only [spanLE, decide_eq_false_iff_not, Nat.not_le] at h
  simpa [spanLE] using Nat.le_of_lt h

theorem covered_cons (s : Span) (l : List Span) :
    covered (s :: l) = Finset.Ico s.lo s.hi ∪ covered l := rfl

theorem covered_mergeInto :
    ∀ (l : List Span) (cur : Span), SortedByLo (cur :: l) →
      covered (mergeInto cur l) = Finset.Ico cur.lo cur.hi ∪ covered l := by
  intro l
  induction l with
  | nil =>
    intro cur _
    simp [mergeInto, covered_cons, covered]
  | cons t rest ih =>
    intro cur h
    have hct : cur.lo ≤ t.lo := (List.chain'_cons.mp h).1
    have htail : SortedByLo (t :: rest) := (List.chain'_cons.mp h).2
    rw [mergeInto]
    split
    · rename_i hover
      have hsort : SortedByLo (⟨cur.lo, max cur.hi t.hi⟩ :: rest) := by
        rw [SortedByLo, List.chain'_cons']
        refine ⟨?_, htail.tail⟩
        intro z hz
        have := List.chain'_cons'.mp htail
        exact Nat.le_trans hct (this.1 z hz)
      rw [ih _ hsort, covered_cons]
      have hIco : Finset.Ico cur.lo (max cur.hi t.hi) =
          Finset.Ico cur.lo cur.hi ∪ Finset.Ico t.lo t.hi := by
        ext x
        simp only [Finset.mem_union, Finset.mem_Ico]
        omega
      rw [hIco, Finset.union_assoc]
    · rename_i hsep
      rw [covered_cons, ih t htail, covered_cons]

theorem lo_head_mergeInto :
    ∀ (l : List Span) (cur : Span) (b : Span),
      (mergeInto cur l).head? = some b → b.lo = cur.lo := by
  intro l
  induction l with
  | nil =>
    intro cur b hb
    simp only [mergeInto, List.head?_cons, Option.some.injEq] at hb
    rw [← hb]
  | cons t rest ih =>
    intro cur b hb
    rw [mergeInto] at hb
    split at hb
    · exact ih ⟨cur.lo, max cur.hi t.hi⟩ b hb
    · simp only [List.head?_cons, Option.some.injEq] at hb
      rw [← hb]

theorem separated_mergeInto :
    ∀ (l : List Span) (cur : Span), SortedByLo (cur :: l) →
      Separated (mergeInto cur l) := by
  intro l
  induction l with
  | nil =>
    intro cur _
    simp [mergeInto, Separated]
  | cons t rest ih =>
    intro cur h
    have hct : cur.lo ≤ t.lo := (List.chain'_cons.mp h).1
    have htail : SortedByLo (t :: rest) := (List.chain'_cons.mp h).2
    rw [mergeInto]
    split
    · rename_i hover
      refine ih _ ?_
      rw [SortedByLo, List.chain'_cons']
      refine ⟨?_, htail.tail⟩
      intro z hz
      have := List.chain'_cons'.mp htail
      exact Nat.le_trans hct (this.1 z hz)
    · rename_i hsep
      rw [Separated, List.chain'_cons']
      refine ⟨?_, ih t htail⟩
      intro z hz
      have hzlo : z.lo = t.lo := lo_head_mergeInto rest t z hz
      exact ⟨by omega, by omega⟩

theorem mergeInto_of_separated :
    ∀ (l : List Span) (cur : Span), Separated (cur :: l) →
      mergeInto cur l = cur :: l := by
  intro l
  induction l with
  | nil => intro cur _; rfl
  | cons t rest ih =>
    intro cur h
    have hsep : SepR cur t := (List.chain'_cons.mp h).1
    have htail : Separated (t :: rest) := (List.chain'_cons.mp h).2
    rw [mergeInto, if_neg (by exact Nat.not_le.mpr hsep.1), ih t htail]

theorem separated_deoverlap (l : List Span) : Separated (deoverlap l) := by
  rw [deoverlap]
  rcases hs : sortSpans l with _ | ⟨s, rest⟩
  · simp [Separated]
  · have := sortedByLo_sortSpans l
    rw [hs] at this
    exact separated_mergeInto rest s this

theorem sortedByLo_of_separated {l : List Span} (h : Separated l) :
    SortedByLo l :=
  List.Chain'.imp (fun _ _ hab => hab.2) h

theorem deoverlap_idem (l : List Span) :
    deoverlap (deoverlap l) = deoverlap l := by
  have hsep := separated_deoverlap l
  have hsorted : sortSpans (deoverlap l) = deoverlap l := by
    apply sortOrd_of_sortedB
    rw [sortedB_spanLE_iff]
    exact sortedByLo_of_separated hsep
  rw [deoverlap, hsorted]
  rcases hd : deoverlap l with _ | ⟨s, rest⟩
  · rfl
  · rw [hd] at hsep
    exact mergeInto_of_separated rest s hsep

theorem covered_sortSpans (l : List Span) :
    covered (sortSpans l) = covered l :=
  covered_eq_of_mem_iff (fun s => mem_sortOrd spanLE s l)

theorem covered_deoverlap (l : List Span) :
    covered (deoverlap l) = covered l := by
  rw [deoverlap]
  rcases hs : sortSpans l with _ | ⟨s, rest⟩
  · rw [← covered_sortSpans l, hs]
  · have hsorted := sortedByLo_sortSpans l
    rw [hs] at hsorted
    rw [covered_mergeInto rest s hsorted, ← covered_cons, ← hs,
      covered_sortSpans]

theorem sep_head_forall {a : Span} {l : List Span}
    (h : Separated (a :: l)) : ∀ b ∈ l, a.hi < b.lo ∧ a.lo ≤ b.lo := by
  induction l generalizing a with
  | nil => intro b hb; cases hb
  | cons t rest ih =>
    intro b hb
    have hat : SepR a t := (List.chain'_cons.mp h).1
    have htail : Separated (t :: rest) := (List.chain'_cons.mp h).2
    rcases List.mem_cons.mp hb with rfl | hb
    · exact hat
    · obtain ⟨h1, h2⟩ := hat
      obtain ⟨h3, h4⟩ := ih htail b hb
      exact ⟨by omega, by omega⟩

theorem sum_len_eq_card {m : List Span} (h : Separated m) :
    (m.map Span.len).sum = (covered m).card := by
  induction m with
  | nil => simp [covered]
  | cons s rest ih =>
    have htail : Separated rest := h.tail
    have hdisj : Disjoint (Finset.Ico s.lo s.hi) (covered rest) := by
      rw [Finset.disjoint_left]
      intro x hx hx'
      obtain ⟨t, ht, hxt⟩ := mem_covered.mp hx'
      have := (sep_head_forall h t ht).1
      simp only [Finset.mem_Ico] at hx
      omega
    rw [covered_cons, List.map_cons, List.sum_cons,
      Finset.card_union_of_disjoint hdisj, ih htail, Nat.card_Ico]
    rfl

theorem totalCharactersOf_eq_card (l : List Span) :
    totalCharactersOf l = (covered l).card := by
  rw [totalCharactersOf, sum_len_eq_card (separated_deoverlap l),
    covered_deoverlap]

theorem totalCharactersOf_mono {l₁ l₂ : List Span}
    (h : ∀ s ∈ l₁, s ∈ l₂) :
    totalCharactersOf l₁ ≤ totalCharactersOf l₂ := by
  rw [totalCharactersOf_eq_card, totalCharactersOf_eq_card]
  apply Finset.card_le_card
  intro x hx
  obtain ⟨s, hs, hxs⟩ := mem_covered.mp hx
  exact mem_covered.mpr ⟨s, h s hs, hxs⟩

theorem mem_stage0 {sim : Document → ℚ} {src d : Document}
    {corpus : List Document} {k0 : Nat}
    (h : d ∈ stage0 sim src corpus k0) :
    d ∈ corpus ∧ eligible src d = true := by
  rw [stage0] at h
  have h1 := (List.take_sublist _ _).subset h
  obtain ⟨sd, hsd, hfd⟩ := List.mem_map.mp h1
  rw [mem_sortOrd] at hsd
  obtain ⟨d', hd', heq⟩ := List.mem_map.mp hsd
  obtain ⟨hmem, helig⟩ := List.mem_filter.mp hd'
  have hdd : d = d' := by rw [← hfd, ← heq]
  rw [hdd]
  exact ⟨hmem, helig⟩

theorem mem_stage1 {simChunk : List ℚ → List ℚ → ℚ} {src d : Document}
    {cands : List Document} {k1 : Nat}
    (h : d ∈ stage1 simChunk src cands k1) : d ∈ cands := by
  rw [stage1] at h
  have h1 := (List.take_sublist _ _).subset h
  obtain ⟨sd, hsd, hfd⟩ := List.mem_map.mp h1
  rw [mem_sortOrd] at hsd
  obtain ⟨d', hd', heq⟩ := List.mem_map.mp hsd
  have hdd : d = d' := by rw [← hfd, ← heq]
  rw [hdd]
  exact hd'

theorem mem_stage2Batch {score : Document → Except ScoringError SearchResult}
    {l : List Document} {r : SearchResult} :
    r ∈ stage2Batch score l ↔ ∃ c ∈ l, score c = .ok r := by
  induction l with
  | nil => simp [stage2Batch]
  | cons c rest ih =>
    cases hc : score c with
    | ok r' =>
      simp only [stage2Batch, hc, List.mem_cons, ih]
      constructor
      · rintro (rfl | ⟨c', hc', hok⟩)
        · exact ⟨c, Or.inl rfl, hc⟩
        · exact ⟨c', Or.inr hc', hok⟩
      · rintro ⟨c', (rfl | hc'), hok⟩
        · rw [hc] at hok
          injection hok with hok
          exact Or.inl hok.symm
        · exact Or.inr ⟨c', hc', hok⟩
    | error e =>
      simp only [stage2Batch, hc, ih]
      constructor
      · rintro ⟨c', hc', hok⟩
        exact ⟨c', List.mem_cons_of_mem _ hc', hok⟩
      · rintro ⟨c', hc', hok⟩
        rcases List.mem_cons.mp hc' with rfl | h'
        · rw [hc] at hok
          cases hok
        · exact ⟨c', h', hok⟩

theorem search_ok_elim {sim : Document → ℚ} {simChunk : List ℚ → List ℚ → ℚ}
    {chunkThreshold : ℚ} {fetch : Document → Except ScoringError (List Chunk)}
    {corpus : List Document} {srcId : Nat} {opts : SearchOptions}
    {results : List SearchResult}
    (h : search sim simChunk chunkThreshold fetch corpus srcId opts =
      .ok results) :
    ∃ src, findDocument corpus srcId = some src ∧
      results = sortOrd (resultLE opts.thresholdKey)
        ((pipeline sim simChunk chunkThreshold fetch corpus src
            opts.stage0_topK opts.stage1_topK).filter
          (fun r =>
            decide (opts.threshold ≤ primaryScore opts.thresholdKey r))) := by
  rw [search] at h
  rcases hf : findDocument corpus srcId with _ | src
  · simp only [hf] at h
    exact Except.noConfusion h
  · simp only [hf] at h
    rcases hc : src.centroidEmbedding with _ | cv
    · simp only [hc] at h
      exact Except.noConfusion h
    · rcases ht : src.totalCharacters with _ | tv
      · simp only [hc, ht] at h
        exact Except.noConfusion h
      · simp only [hc, ht, Except.ok.injEq] at h
        exact ⟨src, rfl, h.symm⟩

theorem scorer_ok_elim {simChunk : List ℚ → List ℚ → ℚ}
    {chunkThreshold : ℚ} {src c : Document}
    {fetch : Document → Except ScoringError (List Chunk)}
    {r : SearchResult}
    (h : (fetch c).map
      (fun chunks => scoreCandidate simChunk chunkThreshold src chunks c) =
      .ok r) :
    ∃ chunks, fetch c = .ok chunks ∧
      scoreCandidate simChunk chunkThreshold src chunks c = r := by
  cases hfc : fetch c with
  | ok chunks =>
    rw [hfc] at h
    simp only [Except.map] at h
    injection h with h
    exact ⟨chunks, rfl, h⟩
  | error e =>
    rw [hfc] at h
    simp only [Except.map] at h
    exact Except.noConfusion h

theorem scoreCandidate_docId (simChunk : List ℚ → List ℚ → ℚ)
    (chunkThreshold : ℚ) (src : Document) (chunks : List Chunk)
    (c : Document) :
    (scoreCandidate simChunk chunkThreshold src chunks c).docId = c.id := rfl

theorem length_filter_mono {p q : α → Bool} (l : List α)
    (h : ∀ a, p a = true → q a = true) :
    (l.filter p).length ≤ (l.filter q).length := by
  induction l with
  | nil => exact Nat.le_refl _
  | cons a l ih =>
    simp only [List.filter]
    cases hp : p a with
    | true =>
      rw [h a hp]
      exact Nat.succ_le_succ ih
    | false =>
      cases hq : q a with
      | true => exact Nat.le_trans ih (Nat.le_succ _)
      | false => exact ih

theorem ratio_unit_interval {m t : Nat} (h : m ≤ t) :
    0 ≤ (m : ℚ) / (t : ℚ) ∧ (m : ℚ) / (t : ℚ) ≤ 1 := by
  refine ⟨div_nonneg (Nat.cast_nonneg m) (Nat.cast_nonneg t), ?_⟩
  rcases Nat.eq_zero_or_pos t with rfl | ht
  · have hm : m = 0 := Nat.le_zero.mp h
    simp [hm]
  · rw [div_le_one (by exact_mod_cast ht)]
    exact_mod_cast h

theorem scoreCandidate_bounds (simChunk : List ℚ → List ℚ → ℚ)
    (chunkThreshold : ℚ) (src cand : Document)
    (hs : docTotalsConsistent src) (hc : docTotalsConsistent cand) :
    0 ≤ (scoreCandidate simChunk chunkThreshold src cand.chunks
        cand).scores.sourceScore ∧
    (scoreCandidate simChunk chunkThreshold src cand.chunks
        cand).scores.sourceScore ≤ 1 ∧
    0 ≤ (scoreCandidate simChunk chunkThreshold src cand.chunks
        cand).scores.targetScore ∧
    (scoreCandidate simChunk chunkThreshold src cand.chunks
        cand).scores.targetScore ≤ 1 := by
  have hms : totalCharactersOf
      ((matchedSourceChunks simChunk chunkThreshold src.chunks
        cand.chunks).map Chunk.span) ≤
      totalCharactersOf (src.chunks.map Chunk.span) := by
    apply totalCharactersOf_mono
    intro s hs'
    obtain ⟨ch, hch, hsp⟩ := List.mem_map.mp hs'
    exact List.mem_map.mpr ⟨ch, List.mem_of_mem_filter hch, hsp⟩
  have hmt : totalCharactersOf
      ((matchedTargetChunks simChunk chunkThreshold src.chunks
        cand.chunks).map Chunk.span) ≤
      totalCharactersOf (cand.chunks.map Chunk.span) := by
    apply totalCharactersOf_mono
    intro s hs'
    obtain ⟨ch, hch, hsp⟩ := List.mem_map.mp hs'
    exact List.mem_map.mpr ⟨ch, List.mem_of_mem_filter hch, hsp⟩
  rw [docTotalsConsistent] at hs hc
  simp only [scoreCandidate, hs, hc, Option.getD_some]
  obtain ⟨h1, h2⟩ := ratio_unit_interval hms
  obtain ⟨h3, h4⟩ := ratio_unit_interval hmt
  exact ⟨h1, h2, h3, h4⟩

/-- C6: the de-overlap step is idempotent — applying it twice yields the
same `totalCharacters` and the same `effectiveChunkCount` as applying it
once (for every chunk-span set). -/
theorem deoverlap_idempotent (l : List Span) :
    totalCharactersOf (deoverlap l) = totalCharactersOf l ∧
    effectiveChunkCountOf (deoverlap l) = effectiveChunkCountOf l := by
  refine ⟨?_, ?_⟩
  · rw [totalCharactersOf, totalCharactersOf, deoverlap_idem]
  · rw [effectiveChunkCountOf, effectiveChunkCountOf, deoverlap_idem]

/-- C8: the funnel never grows — Stage 0 returns at most `stage0_topK`
candidates, Stage 1 returns at most as many as Stage 0 produced, and
the candidates entering Stage 2 (Stage 1's output) number at most
`stage1_topK`. -/
theorem funnel_never_grows (sim : Document → ℚ)
    (simChunk : List ℚ → List ℚ → ℚ) (src : Document)
    (corpus : List Document) (k0 k1 : Nat) :
    (stage0 sim src corpus k0).length ≤ k0 ∧
    (stage1 simChunk src (stage0 sim src corpus k0) k1).length ≤
      (stage0 sim src corpus k0).length ∧
    (stage1 simChunk src (stage0 sim src corpus k0) k1).length ≤ k1 := by
  have hlen : ∀ (cands : List Document) (k : Nat),
      (stage1 simChunk src cands k).length = min k cands.length := by
    intro cands k
    simp [stage1, List.length_take, length_sortOrd, List.length_map]
  refine ⟨?_, ?_, ?_⟩
  · simp only [stage0, List.length_take]
    exact Nat.min_le_left _ _
  · rw [hlen]
    exact Nat.min_le_right _ _
  · rw [hlen]
    exact Nat.min_le_left _ _

/-- C9: a per-candidate Stage 2 scoring failure is caught locally —
scoring a batch in which one candidate fails returns exactly the batch
without that candidate, and a result is returned precisely for each
remaining candidate that scores successfully; the batch never aborts. -/
theorem per_candidate_failure_isolated
    (score : Document → Except ScoringError SearchResult)
    (l₁ l₂ : List Document) (c : Document) (e : ScoringError)
    (h : score c = .error e) :
    stage2Batch score (l₁ ++ c :: l₂) = stage2Batch score (l₁ ++ l₂) ∧
    (∀ r, r ∈ stage2Batch score (l₁ ++ c :: l₂) ↔
      ∃ c' ∈ l₁ ++ l₂, score c' = .ok r) := by
  have hmain : stage2Batch score (l₁ ++ c :: l₂) =
      stage2Batch score (l₁ ++ l₂) := by
    induction l₁ with
    | nil => simp [stage2Batch, h]
    | cons a l ih =>
      cases ha : score a with
      | ok r => simp only [List.cons_append, stage2Batch, ha, List.append_eq, ih]
      | error e' =>
        simp only [List.cons_append, stage2Batch, ha, List.append_eq, ih]
  refine ⟨hmain, fun r => ?_⟩
  rw [hmain]
  exact mem_stage2Batch

/-- C9 witness: in a concrete batch of three candidates where scoring
fails on the middle one, that candidate is dropped and the other two are
still scored. -/
theorem per_candidate_failure_isolated_witness :
    stage2Batch failingScorer [plainDoc 2, plainDoc 1, plainDoc 3] =
      stage2Batch failingScorer [plainDoc 2, plainDoc 3] ∧
    (∀ r, r ∈ stage2Batch failingScorer [plainDoc 2, plainDoc 1, plainDoc 3] ↔
      ∃ c' ∈ [plainDoc 2, plainDoc 3], failingScorer c' = .ok r) :=
  per_candidate_failure_isolated failingScorer [plainDoc 2] [plainDoc 3]
    (plainDoc 1) ⟨1, "chunk fetch error"⟩ rfl

/-- C10: inserting a chunk-embedding row preserves the uniqueness of
`(document_id, chunk_index)` enforced by
`idx_document_embeddings_unique`: whenever the insert succeeds, the
resulting table still has no two rows with the same document and chunk
index (and a row carries exactly one `document_id`, so every chunk
belongs to exactly one document). -/
theorem insertEmbedding_preserves_uniqueness
    (rows rows' : List EmbeddingRow) (r : EmbeddingRow)
    (h : uniqueIndexOk rows)
    (hins : insertEmbedding rows r = some rows') :
    uniqueIndexOk rows' := by
  rw [insertEmbedding] at hins
  split at hins
  · exact Option.noConfusion hins
  · rename_i hany
    injection hins with hins
    rw [← hins, uniqueIndexOk, List.pairwise_append]
    refine ⟨h, List.pairwise_singleton _ _, ?_⟩
    intro q hq b hb hcol
    rcases List.mem_singleton.mp hb with rfl
    apply hany
    rw [List.any_eq_true]
    refine ⟨q, hq, ?_⟩
    rw [Bool.and_eq_true, beq_iff_eq, beq_iff_eq]
    exact hcol

/-- C10 witness: inserting a second row of the same document at a fresh
chunk index succeeds and keeps the unique index satisfied. -/
theorem insertEmbedding_preserves_uniqueness_witness :
    uniqueIndexOk [sampleRow 0] ∧
    insertEmbedding [sampleRow 0] (sampleRow 1) =
      some [sampleRow 0, sampleRow 1] ∧
    uniqueIndexOk [sampleRow 0, sampleRow 1] :=
  ⟨by decide, by decide,
    insertEmbedding_preserves_uniqueness [sampleRow 0]
      [sampleRow 0, sampleRow 1] (sampleRow 1) (by decide) (by decide)⟩

/-- C1: if the source document's `centroidEmbedding` is not set,
`search` fails with the `IncompleteDocument` error.  The index scoring
`sim` and chunk store `fetch` are universally quantified, so the
failure happens before — and independently of — any index lookup, and
no partial search is attempted. -/
theorem search_incomplete_fails_fast (sim : Document → ℚ)
    (simChunk : List ℚ → List ℚ → ℚ) (chunkThreshold : ℚ)
    (fetch : Document → Except ScoringError (List Chunk))
    (corpus : List Document) (srcId : Nat) (opts : SearchOptions)
    (src : Document) (hfind : findDocument corpus srcId = some src)
    (hcent : src.centroidEmbedding = none) :
    search sim simChunk chunkThreshold fetch corpus srcId opts =
      .error .incompleteDocument := by
  rw [search]
  simp only [hfind, hcent]

/-- C1 witness: at a concrete one-document corpus whose document has no
centroid, `search` fails with `IncompleteDocument`. -/
theorem search_incomplete_fails_fast_witness :
    search simConst simChunkEq 1 fetchOk [incompleteDoc] 0
      (scenarioOptions .bySource) = .error .incompleteDocument :=
  search_incomplete_fails_fast simConst simChunkEq 1 fetchOk [incompleteDoc]
    0 (scenarioOptions .bySource) incompleteDoc
    (by norm_num [findDocument, incompleteDoc, List.find?]) rfl

/-- C3: in the scenario corpus (source with `totalCharacters = 10000`,
one candidate with `totalCharacters = 5000`, exactly one aligned
section covering 4500 source characters and all 5000 candidate
characters), Stage 2 scores the candidate with `sourceScore = 0.45` and
`targetScore = 1.0`; with inclusion threshold 0.90 on `targetScore` the
candidate is in the result set, and with threshold 0.90 on
`sourceScore` it is not. -/
theorem scenario_scores_and_threshold :
    scoreCandidate simChunkEq 1 scenarioSource scenarioCandidate.chunks
      scenarioCandidate = scenarioResult ∧
    scenarioResult.scores.sourceScore = 45/100 ∧
    scenarioResult.scores.targetScore = 1 ∧
    search simConst simChunkEq 1 fetchOk scenarioCorpus 1
      (scenarioOptions .byTarget) = .ok [scenarioResult] ∧
    search simConst simChunkEq 1 fetchOk scenarioCorpus 1
      (scenarioOptions .bySource) = .ok [] := by
  refine ⟨?_, ?_, ?_, ?_, ?_⟩
  · norm_num [scoreCandidate, scenarioSource, scenarioCandidate,
      scenarioResult, matchedSourceChunks, matchedTargetChunks,
      totalCharactersOf, deoverlap, sortSpans, sortOrd, insertOrd,
      mergeInto, simChunkEq, Span.len, List.filter, List.any, spanLE]
  · norm_num [scenarioResult]
  · norm_num [scenarioResult]
  · norm_num [search, findDocument, scenarioCorpus, scenarioSource,
      scenarioCandidate, scenarioOptions, scenarioResult, pipeline, stage0,
      stage1, stage2Batch, scoreCandidate, matchedSourceChunks,
      matchedTargetChunks, totalCharactersOf, deoverlap, sortSpans, sortOrd,
      insertOrd, mergeInto, eligible, candLE, resultLE, primaryScore,
      simConst, simChunkEq, fetchOk, refinedScore, List.find?, List.filter,
      List.any, Span.len, Except.map, spanLE]
  · norm_num [search, findDocument, scenarioCorpus, scenarioSource,
      scenarioCandidate, scenarioOptions, scenarioResult, pipeline, stage0,
      stage1, stage2Batch, scoreCandidate, matchedSourceChunks,
      matchedTargetChunks, totalCharactersOf, deoverlap, sortSpans, sortOrd,
      insertOrd, mergeInto, eligible, candLE, resultLE, primaryScore,
      simConst, simChunkEq, fetchOk, refinedScore, List.find?, List.filter,
      List.any, Span.len, Except.map, spanLE]

/-- C4: `search` never returns the source document itself — every
returned result's document identifier differs from the queried source
identifier, for every corpus, options and collaborator behavior. -/
theorem search_never_returns_source (sim : Document → ℚ)
    (simChunk : List ℚ → List ℚ → ℚ) (chunkThreshold : ℚ)
    (fetch : Document → Except ScoringError (List Chunk))
    (corpus : List Document) (srcId : Nat) (opts : SearchOptions)
    (results : List SearchResult) (r : SearchResult)
    (hok : search sim simChunk chunkThreshold fetch corpus srcId opts =
      .ok results)
    (hr : r ∈ results) : r.docId ≠ srcId := by
  obtain ⟨src, hfind, hres⟩ := search_ok_elim hok
  rw [hres, mem_sortOrd] at hr
  have hr2 := List.mem_of_mem_filter hr
  rw [pipeline] at hr2
  obtain ⟨c, hc, hok2⟩ := mem_stage2Batch.mp hr2
  obtain ⟨chunks, hfc, hsc⟩ := scorer_ok_elim hok2
  have hdoc : r.docId = c.id := by
    rw [← hsc]
    rfl
  obtain ⟨hmem, helig⟩ := mem_stage0 (mem_stage1 hc)
  have hne : c.id ≠ src.id := by
    simp only [eligible, Bool.and_eq_true, decide_eq_true_eq] at helig
    exact helig.1.1.1
  have hsrc : src.id = srcId := by
    rw [findDocument] at hfind
    have := List.find?_some hfind
    simpa using this
  rw [hdoc, ← hsrc]
  exact hne

/-- C4 witness: in the concrete scenario search the returned result is
not the source document. -/
theorem search_never_returns_source_witness :
    scenarioResult.docId ≠ 1 :=
  search_never_returns_source simConst simChunkEq 1 fetchOk scenarioCorpus 1
    (scenarioOptions .byTarget) [scenarioResult] scenarioResult
    (by norm_num [search, findDocument, scenarioCorpus, scenarioSource,
      scenarioCandidate, scenarioOptions, scenarioResult, pipeline, stage0,
      stage1, stage2Batch, scoreCandidate, matchedSourceChunks,
      matchedTargetChunks, totalCharactersOf, deoverlap, sortSpans, sortOrd,
      insertOrd, mergeInto, eligible, candLE, resultLE, primaryScore,
      simConst, simChunkEq, fetchOk, refinedScore, List.find?, List.filter,
      List.any, Span.len, Except.map, spanLE])
    (List.mem_singleton.mpr rfl)

/-- C5: a candidate whose `embeddingModel` differs from the source's
never appears in Stage 0 output, for every index scoring `sim`
(regardless of vector similarity); the exclusion is silent — `search`
never fails with `ModelMismatch` — and every final result comes from a
Stage 0 survivor whose embedding model equals the source's, so a
mismatched candidate never reaches the final results. -/
theorem model_mismatch_silently_excluded (sim : Document → ℚ)
    (simChunk : List ℚ → List ℚ → ℚ) (chunkThreshold : ℚ)
    (fetch : Document → Except ScoringError (List Chunk))
    (corpus : List Document) (srcId : Nat) (opts : SearchOptions)
    (src : Document) (k : Nat)
    (hfind : findDocument corpus srcId = some src) :
    (∀ c ∈ stage0 sim src corpus k,
      c.embeddingModel = src.embeddingModel) ∧
    search sim simChunk chunkThreshold fetch corpus srcId opts ≠
      .error .modelMismatch ∧
    (∀ results r,
      search sim simChunk chunkThreshold fetch corpus srcId opts =
        .ok results → r ∈ results →
      ∃ c ∈ stage0 sim src corpus opts.stage0_topK,
        c.id = r.docId ∧ c.embeddingModel = src.embeddingModel) := by
  have hmodel : ∀ (k' : Nat), ∀ c ∈ stage0 sim src corpus k',
      c.embeddingModel = src.embeddingModel := by
    intro k' c hc
    obtain ⟨hmem, helig⟩ := mem_stage0 hc
    simp only [eligible, Bool.and_eq_true, decide_eq_true_eq] at helig
    exact helig.2
  refine ⟨hmodel k, ?_, ?_⟩
  · intro hcontra
    rw [search] at hcontra
    rcases hf2 : findDocument corpus srcId with _ | s
    · simp only [hf2] at hcontra
      exact SearchError.noConfusion (Except.error.inj hcontra)
    · simp only [hf2] at hcontra
      rcases hc2 : s.centroidEmbedding with _ | cv
      · simp only [hc2] at hcontra
        exact SearchError.noConfusion (Except.error.inj hcontra)
      · rcases ht2 : s.totalCharacters with _ | tv
        · simp only [hc2, ht2] at hcontra
          exact SearchError.noConfusion (Except.error.inj hcontra)
        · simp only [hc2, ht2] at hcontra
          exact Except.noConfusion hcontra
  · intro results r hok hr
    obtain ⟨src', hfind', hres⟩ := search_ok_elim hok
    rw [hfind] at hfind'
    injection hfind' with hfind'
    rw [← hfind'] at hres
    rw [hres, mem_sortOrd] at hr
    have hr2 := List.mem_of_mem_filter hr
    rw [pipeline] at hr2
    obtain ⟨c, hc, hok2⟩ := mem_stage2Batch.mp hr2
    obtain ⟨chunks, hfc, hsc⟩ := scorer_ok_elim hok2
    have hdoc : c.id = r.docId := by
      rw [← hsc]
      rfl
    exact ⟨c, mem_stage1 hc, hdoc, hmodel _ c (mem_stage1 hc)⟩

/-- C5 witness: in a concrete corpus holding a candidate from a
different embedding space, every Stage 0 survivor carries the source's
model, `search` does not fail with `ModelMismatch`, and every result
traces back to a model-matching Stage 0 survivor. -/
theorem model_mismatch_silently_excluded_witness :
    (∀ c ∈ stage0 simConst scenarioSource corpusWithMismatch 600,
      c.embeddingModel = scenarioSource.embeddingModel) ∧
    search simConst simChunkEq 1 fetchOk corpusWithMismatch 1
      (scenarioOptions .byTarget) ≠ .error .modelMismatch ∧
    (∀ results r,
      search simConst simChunkEq 1 fetchOk corpusWithMismatch 1
        (scenarioOptions .byTarget) = .ok results → r ∈ results →
      ∃ c ∈ stage0 simConst scenarioSource corpusWithMismatch
          (scenarioOptions .byTarget).stage0_topK,
        c.id = r.docId ∧ c.embeddingModel = scenarioSource.embeddingModel) :=
  model_mismatch_silently_excluded simConst simChunkEq 1 fetchOk
    corpusWithMismatch 1 (scenarioOptions .byTarget) scenarioSource 600
    (by norm_num [findDocument, corpusWithMismatch, scenarioCorpus,
      scenarioSource, scenarioCandidate, mismatchDoc, List.find?])

/-- C7: threshold filtering is monotone — for a fixed corpus, source
and otherwise fixed options, raising the inclusion threshold never
increases the number of returned results. -/
theorem threshold_monotone (sim : Document → ℚ)
    (simChunk : List ℚ → List ℚ → ℚ) (chunkThreshold : ℚ)
    (fetch : Document → Except ScoringError (List Chunk))
    (corpus : List Document) (srcId : Nat) (k0 k1 w : Nat)
    (key : ThresholdKey) (t₁ t₂ : ℚ) (h : t₁ ≤ t₂) :
    resultCount (search sim simChunk chunkThreshold fetch corpus srcId
      ⟨k0, k1, w, t₂, key⟩) ≤
    resultCount (search sim simChunk chunkThreshold fetch corpus srcId
      ⟨k0, k1, w, t₁, key⟩) := by
  rw [search, search]
  rcases hf : findDocument corpus srcId with _ | src
  · simp only [hf]
    exact Nat.le_refl _
  · simp only [hf]
    rcases hc : src.centroidEmbedding with _ | cv
    · simp only [hc]
      exact Nat.le_refl _
    · rcases ht : src.totalCharacters with _ | tv
      · simp only [hc, ht]
        exact Nat.le_refl _
      · simp only [hc, ht, resultCount, length_sortOrd]
        apply length_filter_mono
        intro r hr
        simp only [decide_eq_true_eq] at hr ⊢
        exact le_trans h hr

/-- C7 witness: on the concrete scenario corpus, the search with
threshold 1 returns no more results than the search with threshold
0.90. -/
theorem threshold_monotone_witness :
    resultCount (search simConst simChunkEq 1 fetchOk scenarioCorpus 1
      ⟨600, 250, 1, 1, .byTarget⟩) ≤
    resultCount (search simConst simChunkEq 1 fetchOk scenarioCorpus 1
      ⟨600, 250, 1, 9/10, .byTarget⟩) :=
  threshold_monotone simConst simChunkEq 1 fetchOk scenarioCorpus 1
    600 250 1 .byTarget (9/10) 1 (by norm_num)

/-- C2: every result of a completed search carries `sourceScore` and
`targetScore` in the closed interval `[0, 1]`, provided the stored
per-document totals are the de-overlapped character counts of the
documents' chunks and the chunk store returns each document's chunks. -/
theorem search_scores_in_unit_interval (sim : Document → ℚ)
    (simChunk : List ℚ → List ℚ → ℚ) (chunkThreshold : ℚ)
    (fetch : Document → Except ScoringError (List Chunk))
    (corpus : List Document) (srcId : Nat) (opts : SearchOptions)
    (results : List SearchResult) (r : SearchResult)
    (hcons : ∀ d ∈ corpus, docTotalsConsistent d)
    (hfetch : ∀ d, fetch d = .ok d.chunks)
    (hok : search sim simChunk chunkThreshold fetch corpus srcId opts =
      .ok results)
    (hr : r ∈ results) :
    0 ≤ r.scores.sourceScore ∧ r.scores.sourceScore ≤ 1 ∧
    0 ≤ r.scores.targetScore ∧ r.scores.targetScore ≤ 1 := by
  obtain ⟨src, hfind, hres⟩ := search_ok_elim hok
  rw [hres, mem_sortOrd] at hr
  have hr2 := List.mem_of_mem_filter hr
  rw [pipeline] at hr2
  obtain ⟨c, hc, hok2⟩ := mem_stage2Batch.mp hr2
  obtain ⟨chunks, hfc, hsc⟩ := scorer_ok_elim hok2
  rw [hfetch c] at hfc
  injection hfc with hfc
  rw [← hfc] at hsc
  have hsrcmem : src ∈ corpus := by
    rw [findDocument] at hfind
    exact List.mem_of_find?_eq_some hfind
  have hcmem : c ∈ corpus := (mem_stage0 (mem_stage1 hc)).1
  rw [← hsc]
  exact scoreCandidate_bounds simChunk chunkThreshold src c
    (hcons src hsrcmem) (hcons c hcmem)

/-- C2 witness: the concrete scenario search's result has both scores
inside `[0, 1]`. -/
theorem search_scores_in_unit_interval_witness :
    0 ≤ scenarioResult.scores.sourceScore ∧
    scenarioResult.scores.sourceScore ≤ 1 ∧
    0 ≤ scenarioResult.scores.targetScore ∧
    scenarioResult.scores.targetScore ≤ 1 :=
  search_scores_in_unit_interval simConst simChunkEq 1 fetchOk
    scenarioCorpus 1 (scenarioOptions .byTarget) [scenarioResult]
    scenarioResult
    (by
      intro d hd
      rcases List.mem_cons.mp hd with rfl | hd
      · norm_num [docTotalsConsistent, scenarioSource, totalCharactersOf,
          deoverlap, sortSpans, sortOrd, insertOrd, mergeInto, spanLE,
          Span.len]
      · rcases List.mem_cons.mp hd with rfl | hd
        · norm_num [docTotalsConsistent, scenarioCandidate,
            totalCharactersOf, deoverlap, sortSpans, sortOrd, insertOrd,
            mergeInto, spanLE, Span.len]
        · cases hd)
    (fun d => rfl)
    (by norm_num [search, findDocument, scenarioCorpus, scenarioSource,
      scenarioCandidate, scenarioOptions, scenarioResult, pipeline, stage0,
      stage1, stage2Batch, scoreCandidate, matchedSourceChunks,
      matchedTargetChunks, totalCharactersOf, deoverlap, sortSpans, sortOrd,
      insertOrd, mergeInto, eligible, candLE, resultLE, primaryScore,
      simConst, simChunkEq, fetchOk, refinedScore, List.find?, List.filter,
      List.any, Span.len, Except.map, spanLE])
    (List.mem_singleton.mpr rfl)

end PdfSearch
